import Mathlib

/-!
# Column-store search (`src/btree/col_srch.c`) — a shallow embedding

This file embeds the column-store key-lookup path of the WiredTiger btree
(`__check_leaf_key_range` and `__wt_col_search`) as executable Lean
definitions, and proves/refutes the specification's claims about it.

Record numbers are 64-bit unsigned integers; they are modelled as `Nat`,
with the one place the C code performs unsigned arithmetic
(`pg_fix_recno + pg_fix_entries`) reduced modulo `2 ^ 64` explicitly.
Slot indices are 32-bit; the sentinel `UINT32_MAX` is kept as a literal.

External collaborators that are not part of the sources
(`__cursor_pos_clear`, `__col_insert_search`, `__col_var_search`,
`__col_var_last_recno`) are modelled from the specification's contracts;
each such definition is marked `Modelled from the spec:` in its docstring.
-/

/-- `UINT64_MAX`, the new-record allocation sentinel. -/
def uint64Max : Nat := 18446744073709551615

/-- `2 ^ 64`, the modulus of 64-bit unsigned arithmetic. -/
def twoPow64 : Nat := 18446744073709551616

/-- `UINT32_MAX`, the "impossible slot" sentinel stored in `cbt->slot`. -/
def uint32Max : Nat := 4294967295

/-- Which update/append skiplist head of a leaf page the cursor points at.
`WT_COL_UPDATE_SINGLE` (fixed-length whole-page head), `WT_COL_UPDATE_SLOT`
(variable-length per-slot head) or `WT_COL_APPEND`. -/
inductive HeadId where
  | updateSingle : HeadId
  | updateSlot (slot : Nat) : HeadId
  | append : HeadId
deriving Repr, DecidableEq

/-- A column-store leaf page.
* `colFix start entries upd app` — fixed-length page: `pg_fix_recno = start`,
  `pg_fix_entries = entries`, whole-page update skiplist `upd` and append
  skiplist `app` (skiplists are carried as their lists of record numbers,
  ordered increasing).
* `colVar start rle updSlots app` — variable-length page: `pg_var_recno = start`,
  run-length encoded slots `rle` (`rle[i]` records in slot `i`), per-slot
  update skiplists `updSlots` and append skiplist `app`. -/
inductive LeafPage where
  | colFix (start entries : Nat) (upd app : List Nat) : LeafPage
  | colVar (start : Nat) (rle : List Nat) (updSlots : List (List Nat)) (app : List Nat) : LeafPage
deriving Repr, DecidableEq

/-- The parent page's `WT_PAGE_INDEX` snapshot as seen from a pinned leaf:
for each slot, the child's `key.recno` and whether that slot's `WT_REF`
is (pointer-)identical to the pinned leaf. -/
structure HomePindex where
  slots : List (Nat × Bool)
deriving Repr, DecidableEq

/-- A `WT_REF` naming a leaf page: its starting key, the cached
`pindex_hint`, the (optional) parent page index, and the page itself. -/
structure LeafRefM where
  keyRecno : Nat
  pindexHint : Nat
  home : Option HomePindex
  page : LeafPage
deriving Repr, DecidableEq

/-- The `WT_CURSOR_BTREE` fields written by the search. `recno`, `insHead`,
`ins` and `ref` are `Option`s: `none` models the cleared/never-assigned
state (`0` / `NULL` in C). `maxRecord` is the `WT_CBT_MAX_RECORD` flag. -/
structure CursorBtree where
  ref : Option LeafRefM
  recno : Option Nat
  slot : Nat
  compare : Int
  insHead : Option HeadId
  ins : Option Nat
  maxRecord : Bool
deriving Repr, DecidableEq

/-- An all-cleared cursor, used as the `Option.getD` default when reading a
search result. -/
def emptyCursor : CursorBtree :=
  { ref := none, recno := none, slot := 0, compare := 0,
    insHead := none, ins := none, maxRecord := false }

/-- Modelled from the spec: `__cursor_pos_clear` is not among the sources.
Spec §4.6 step 1 says the search begins by clearing the cursor; the position
fields (`recno`, `compare`, `slot`, `ins`, `ins_head`, flags) are reset.
The leaf reference is the caller's pinned position and is left in place,
matching the spec's scenario S2 which expects the reference to survive the
early return. -/
def cursorPosClear (c : CursorBtree) : CursorBtree :=
  { c with recno := none, slot := 0, compare := 0,
           insHead := none, ins := none, maxRecord := false }

/-- `__check_leaf_key_range`: bounds-test a pinned leaf (starting key
`keyRecno`, parent-index hint `hint`, parent snapshot `hp`) against the
search key `recno`, returning the `compare` value it stores
(`1` page-after-key, `-1` page-before-key, `0` must search the leaf).
The C function always returns success (`0`); only `cbt->compare` varies. -/
def checkLeafKeyRange (recno keyRecno hint : Nat) (hp : HomePindex) : Int :=
  if recno < keyRecno then 1
  else if hint + 1 < hp.slots.length ∧ (hp.slots.getD hint (0, false)).2 = true then
    if (hp.slots.getD (hint + 1) (0, false)).1 ≤ recno then -1 else 0
  else 0

/-- The leaf-range check as the specification's §4.1 words describe it,
for comparison with `checkLeafKeyRange` (claim C6): a single flattened
conditional — before-page, valid-hint-and-next-page-at-or-below-key,
otherwise search the leaf. -/
def checkLeafKeyRangeSpec (recno keyRecno hint : Nat) (hp : HomePindex) : Int :=
  if recno < keyRecno then 1
  else if hint + 1 < hp.slots.length ∧ (hp.slots.getD hint (0, false)).2 = true ∧
          (hp.slots.getD (hint + 1) (0, false)).1 ≤ recno then -1
  else 0

/-- The inner binary-search loop of `__wt_col_search` over an internal
page's child keys `ks` (`ks[i] = pindex->index[i]->key.recno`).  State is
`(base, limit, descentIdx)` exactly as in the C `for` loop; the result is
the final `(base, descentIdx, equalityFound)`.  The loop body decreases
`limit` by at least one each iteration, so the structural `fuel`
(instantiated with the initial `limit`) never runs out. -/
def colBinSearchAux (ks : List Nat) (recno : Nat) :
    Nat → Nat → Nat → Nat → Nat × Nat × Bool
  | 0, base, _, dIdx => (base, dIdx, false)
  | fuel + 1, base, limit, dIdx =>
    if limit = 0 then (base, dIdx, false)
    else
      let indx := base + limit / 2
      let k := ks.getD indx 0
      if recno = k then (base, indx, true)
      else if recno < k then colBinSearchAux ks recno fuel base (limit / 2) indx
      else colBinSearchAux ks recno fuel (indx + 1) ((limit - 1) / 2) indx

/-- `for (base = 0, limit = entries - 1; limit != 0; limit >>= 1) ...` —
the C loop entered with `base`, `limit` and `descent` already set. -/
def colBinSearch (ks : List Nat) (recno base limit dIdx : Nat) : Nat × Nat × Bool :=
  colBinSearchAux ks recno limit base limit dIdx

/-- One descent step of the internal-page walk: the right-edge fast path
(`recno >= index[entries-1].key.recno` picks the last child), otherwise the
binary search over `[0, entries-1)` followed by the `descend:` fixup
(`descent = index[base-1]` when no equality was found).  Returns the index
of the chosen child. -/
def colDescentIdx (ks : List Nat) (recno : Nat) : Nat :=
  let entries := ks.length
  if ks.getD (entries - 1) 0 ≤ recno then entries - 1
  else
    let r := colBinSearch ks recno 0 (entries - 1) (entries - 1)
    if r.2.2 then r.2.1 else r.1 - 1

/-- A column-store tree: a leaf page, or an internal page whose children
are `(key.recno, subtree)` pairs in `key.recno` order. -/
inductive ColTree where
  | leafT (page : LeafPage) : ColTree
  | intT (children : List (Nat × ColTree)) : ColTree

/-- The root-to-leaf walk of `__wt_col_search` (sequential semantics: no
concurrent splits, so `page_swap` never fails and the split-race restart
never fires).  `refKey` tracks the `key.recno` of the `WT_REF` being
descended; the result is the reached leaf's `(key.recno, page)`.  `fuel`
bounds the depth; `none` models a tree deeper than the fuel. -/
def descend : Nat → Nat → ColTree → Nat → Option (Nat × LeafPage)
  | _, refKey, .leafT p, _ => some (refKey, p)
  | 0, _, .intT _, _ => none
  | fuel + 1, _, .intT cs, recno =>
    let i := colDescentIdx (cs.map Prod.fst) recno
    let c := cs.getD i (0, .leafT (.colFix 0 0 [] []))
    descend fuel c.1 c.2 recno

/-- Modelled from the spec: `__col_insert_search` is not among the sources.
Spec §6: a skiplist probe that "returns an entry with the greatest
`recno ≤ search recno`", or nothing.  The skiplist is its ordered list of
record numbers; the returned entry is identified by its record number. -/
def colInsertSearch (l : List Nat) (recno : Nat) : Option Nat :=
  l.foldl (fun acc e => if e ≤ recno then some e else acc) none

/-- Modelled from the spec: `__col_var_search` is not among the sources.
Spec §6: "Locate a variable-width slot covering `recno`, or null."  Slot
`i` of a run-length encoded page covers `rle[i]` consecutive records;
`base` is the first record of the slot currently examined, `slot` its
index.  Returns the covering slot's index. -/
def colVarSlotAux (recno : Nat) : Nat → Nat → List Nat → Option Nat
  | _, _, [] => none
  | base, slot, n :: rest =>
    if recno < base + n then some slot else colVarSlotAux recno (base + n) (slot + 1) rest

/-- Modelled from the spec: slot lookup on a variable-length page starting
at record `start` with run lengths `rle` (see `colVarSlotAux`). -/
def colVarSearch (start : Nat) (rle : List Nat) (recno : Nat) : Option Nat :=
  colVarSlotAux recno start 0 rle

/-- Modelled from the spec: `__col_var_last_recno`, the "largest record
number on a variable-width page" (`0` for a page with no entries). -/
def colVarLastRecno (start : Nat) (rle : List Nat) : Nat :=
  if rle.sum = 0 then 0 else start + rle.sum - 1

/-- The `past_end:` label of `__wt_col_search`: the record is past the
page's standard information.  `cbt->ins_head` is set to the append head;
the probe is skipped for the `UINT64_MAX` allocation sentinel; `compare`
and `WT_CBT_MAX_RECORD` are derived from the probe's result. -/
def pastEnd (recno : Nat) (app : List Nat) (cbt : CursorBtree) : CursorBtree :=
  let cbt := { cbt with insHead := some HeadId.append }
  let insr : Option Nat := if recno = uint64Max then none else colInsertSearch app recno
  match insr with
  | none => { cbt with ins := none, compare := -1, maxRecord := true }
  | some m =>
    let cbt :=
      { cbt with
        ins := some m, recno := some m,
        compare := if recno = m then 0 else if recno < m then 1 else -1 }
    if cbt.compare = -1 then { cbt with maxRecord := true } else cbt

/-- The update-list resolution for an in-range slot: probe the selected
head `l`; commit `cbt->ins_head`/`cbt->ins` only on an exact
record-number match. -/
def inRangeResolve (recno : Nat) (h : HeadId) (l : List Nat) (cbt : CursorBtree) : CursorBtree :=
  match colInsertSearch l recno with
  | some r => if recno = r then { cbt with insHead := some h, ins := some r } else cbt
  | none => cbt

/-- The `leaf_only:` portion of `__wt_col_search`: commit `ref`, `recno`,
`compare = 0` and the impossible `slot`, then search the leaf page —
fixed-length (dense slots, before-page / past-end / in-range) or
variable-length (external slot lookup) — and resolve the update or append
skiplist. -/
def leafSearch (recno : Nat) (refv : LeafRefM) (cbt : CursorBtree) : CursorBtree :=
  let cbt := { cbt with ref := some refv, recno := some recno, compare := 0, slot := uint32Max }
  match refv.page with
  | .colFix start entries upd app =>
    if recno < start then { cbt with compare := 1 }
    else if (start + entries) % twoPow64 ≤ recno then
      pastEnd recno app { cbt with recno := some ((start + entries) % twoPow64) }
    else
      inRangeResolve recno HeadId.updateSingle upd cbt
  | .colVar start rle updSlots app =>
    if recno < start then { cbt with compare := 1 }
    else
      match colVarSearch start rle recno with
      | none => pastEnd recno app { cbt with recno := some (colVarLastRecno start rle) }
      | some s => inRangeResolve recno (HeadId.updateSlot s) (updSlots.getD s []) { cbt with slot := s }

/-- `__wt_col_search`: clear the cursor; for a caller-supplied pinned leaf
with a parent, run the leaf-range check and return early (with
`slot = 0`, the `search_near` contract) when the record provably lies
outside the leaf; otherwise search the pinned leaf, or descend from the
root.  Success is `some` (the C return value `0`). -/
def colSearch (fuel : Nat) (root : ColTree) (recno : Nat)
    (leaf : Option LeafRefM) (cbt0 : CursorBtree) : Option CursorBtree :=
  let cbt := cursorPosClear cbt0
  match leaf with
  | some l =>
    match l.home with
    | some hp =>
      let cmp := checkLeafKeyRange recno l.keyRecno l.pindexHint hp
      if cmp ≠ 0 then some { cbt with compare := cmp, slot := 0 }
      else some (leafSearch recno l cbt)
    | none => some (leafSearch recno l cbt)
  | none =>
    match descend fuel 0 root recno with
    | none => none
    | some (k, p) => some (leafSearch recno ⟨k, 0, none, p⟩ cbt)

/-- Does `colSearch` take the early return (pinned leaf with a parent whose
range check rules the page out)? -/
def takesEarlyReturn (recno : Nat) (leaf : Option LeafRefM) : Bool :=
  match leaf with
  | none => false
  | some l =>
    match l.home with
    | none => false
    | some hp => decide (checkLeafKeyRange recno l.keyRecno l.pindexHint hp ≠ 0)

/-! ## Internal-page selection (claim C1) -/

/-- Strictly increasing child keys, read through `getD`. -/
lemma pairwise_lt_getD {ks : List Nat} (hp : List.Pairwise (· < ·) ks) :
    ∀ i j : Nat, i < j → j < ks.length → ks.getD i 0 < ks.getD j 0 := by
  intro i j hij hj
  have hi : i < ks.length := Nat.lt_trans hij hj
  rw [List.getD_eq_getElem ks 0 hi, List.getD_eq_getElem ks 0 hj]
  exact List.pairwise_iff_getElem.mp hp i j hi hj hij

/-- Loop invariant of the C binary search: entered with everything below
`base` strictly smaller than `recno` and everything at or above
`base + limit` (other than the last slot) strictly larger, the loop either
breaks on an equality inside the array or ends with the same invariant
around the final `base`. -/
lemma colBinSearchAux_spec (ks : List Nat) (recno : Nat)
    (hlt : ∀ i j : Nat, i < j → j < ks.length → ks.getD i 0 < ks.getD j 0) :
    ∀ fuel base limit dIdx,
      limit ≤ fuel →
      base + limit + 1 ≤ ks.length →
      (∀ j, j < base → ks.getD j 0 < recno) →
      (∀ j, base + limit ≤ j → j + 1 < ks.length → recno < ks.getD j 0) →
      ((colBinSearchAux ks recno fuel base limit dIdx).2.2 = true →
         (colBinSearchAux ks recno fuel base limit dIdx).2.1 + 1 < ks.length ∧
         ks.getD (colBinSearchAux ks recno fuel base limit dIdx).2.1 0 = recno) ∧
      ((colBinSearchAux ks recno fuel base limit dIdx).2.2 = false →
         (∀ j, j < (colBinSearchAux ks recno fuel base limit dIdx).1 → ks.getD j 0 < recno) ∧
         (∀ j, (colBinSearchAux ks recno fuel base limit dIdx).1 ≤ j → j + 1 < ks.length →
            recno < ks.getD j 0) ∧
         (colBinSearchAux ks recno fuel base limit dIdx).1 + 1 ≤ ks.length) := by
  intro fuel
  induction fuel with
  | zero =>
    intro base limit dIdx hfl hlen h1 h2
    have hl0 : limit = 0 := Nat.le_zero.mp hfl
    subst hl0
    simp only [colBinSearchAux]
    refine ⟨(fun h => nomatch h), fun _ => ⟨h1, ?_, by omega⟩⟩
    intro j hj hjl
    exact h2 j (by omega) hjl
  | succ fuel ih =>
    intro base limit dIdx hfl hlen h1 h2
    by_cases hl : limit = 0
    · subst hl
      refine ⟨(fun h => nomatch h), fun _ => ⟨?_, ?_, ?_⟩⟩
      · show ∀ j, j < base → ks.getD j 0 < recno
        exact h1
      · show ∀ j, base ≤ j → j + 1 < ks.length → recno < ks.getD j 0
        exact fun j hj hjl => h2 j (by omega) hjl
      · show base + 1 ≤ ks.length
        omega
    · simp only [colBinSearchAux, if_neg hl]
      by_cases heq : recno = ks.getD (base + limit / 2) 0
      · rw [if_pos heq]
        dsimp only
        exact ⟨fun _ => ⟨by omega, heq.symm⟩, (fun h => nomatch h)⟩
      · rw [if_neg heq]
        by_cases hltk : recno < ks.getD (base + limit / 2) 0
        · rw [if_pos hltk]
          refine ih base (limit / 2) (base + limit / 2) (by omega) (by omega) h1 ?_
          intro j hj hjl
          rcases Nat.lt_or_ge j (base + limit) with hcase | hcase
          · rcases Nat.eq_or_lt_of_le hj with hje | hjlt
            · rw [← hje]; exact hltk
            · exact Nat.lt_trans hltk (hlt (base + limit / 2) j hjlt (by omega))
          · exact h2 j hcase hjl
        · have hgt : ks.getD (base + limit / 2) 0 < recno := by omega
          rw [if_neg hltk]
          refine ih (base + limit / 2 + 1) ((limit - 1) / 2) (base + limit / 2)
            (by omega) (by omega) ?_ ?_
          · intro j hj
            rcases Nat.eq_or_lt_of_le (Nat.le_of_lt_succ hj) with hje | hjlt
            · rw [hje]; exact hgt
            · exact Nat.lt_trans (hlt j (base + limit / 2) hjlt (by omega)) hgt
          · intro j hj hjl
            exact h2 j (by omega) hjl

/-- Child `i` of an internal page covers `recno`: its starting key is at or
below `recno`, and either it is the last child or the next child starts
strictly above `recno`. -/
def DescentSelected (ks : List Nat) (recno i : Nat) : Prop :=
  i < ks.length ∧ ks.getD i 0 ≤ recno ∧ (i + 1 = ks.length ∨ recno < ks.getD (i + 1) 0)

/-- With strictly increasing keys, at most one child covers `recno`. -/
lemma descentSelected_unique {ks : List Nat} {recno : Nat}
    (hlt : ∀ i j : Nat, i < j → j < ks.length → ks.getD i 0 < ks.getD j 0)
    {i j : Nat} (hi : DescentSelected ks recno i) (hj : DescentSelected ks recno j) :
    i = j := by
  obtain ⟨hi1, hi2, hi3⟩ := hi
  obtain ⟨hj1, hj2, hj3⟩ := hj
  rcases Nat.lt_trichotomy i j with hij | hij | hij
  · exfalso
    rcases hi3 with hi3 | hi3
    · omega
    · have : ks.getD (i + 1) 0 ≤ ks.getD j 0 := by
        rcases Nat.lt_or_ge (i + 1) j with hjlt | hge
        · exact Nat.le_of_lt (hlt (i + 1) j hjlt hj1)
        · have hij1 : i + 1 = j := by omega
          rw [hij1]
      omega
  · exact hij
  · exfalso
    rcases hj3 with hj3 | hj3
    · omega
    · have : ks.getD (j + 1) 0 ≤ ks.getD i 0 := by
        rcases Nat.lt_or_ge (j + 1) i with hjlt | hge
        · exact Nat.le_of_lt (hlt (j + 1) i hjlt hi1)
        · have hij1 : j + 1 = i := by omega
          rw [hij1]
      omega

/-- Claim C1: on a column-internal page whose children's `key.recno`
values are strictly increasing and whose first child's key is at or below
`recno`, one descent step — the right-edge fast path, or otherwise the
binary search over `[0, entries-1)` — selects exactly the unique child
covering `recno`; and when the binary search falls through with no
equality, `base > 0` (so `index[base-1]` is the greatest key ≤ `recno`). -/
theorem colDescentIdx_selects (ks : List Nat) (recno : Nat)
    (hne : 0 < ks.length) (hsort : List.Pairwise (· < ·) ks)
    (h0 : ks.getD 0 0 ≤ recno) :
    DescentSelected ks recno (colDescentIdx ks recno) ∧
    (∀ j, DescentSelected ks recno j → j = colDescentIdx ks recno) ∧
    (¬ ks.getD (ks.length - 1) 0 ≤ recno →
      (colBinSearch ks recno 0 (ks.length - 1) (ks.length - 1)).2.2 = false →
      0 < (colBinSearch ks recno 0 (ks.length - 1) (ks.length - 1)).1) := by
  have hlt := pairwise_lt_getD hsort
  by_cases hfast : ks.getD (ks.length - 1) 0 ≤ recno
  · have hidx : colDescentIdx ks recno = ks.length - 1 := by
      simp only [colDescentIdx]
      rw [if_pos hfast]
    have hsel : DescentSelected ks recno (ks.length - 1) :=
      ⟨by omega, hfast, Or.inl (by omega)⟩
    rw [hidx]
    exact ⟨hsel, fun j hj => descentSelected_unique hlt hj hsel,
      fun h => absurd hfast h⟩
  · have hspec := colBinSearchAux_spec ks recno hlt (ks.length - 1) 0 (ks.length - 1)
      (ks.length - 1) (Nat.le_refl _) (by omega)
      (fun j hj => absurd hj (Nat.not_lt_zero j))
      (fun j hj hjl => absurd hjl (by omega))
    have hlen2 : 2 ≤ ks.length := by
      by_contra hc
      have h1 : ks.length - 1 = 0 := by omega
      rw [h1] at hfast
      exact hfast h0
    have hbs : colBinSearch ks recno 0 (ks.length - 1) (ks.length - 1)
        = colBinSearchAux ks recno (ks.length - 1) 0 (ks.length - 1) (ks.length - 1) := rfl
    rcases hspec with ⟨hTrue, hFalse⟩
    by_cases hr :
        (colBinSearchAux ks recno (ks.length - 1) 0 (ks.length - 1) (ks.length - 1)).2.2 = true
    · obtain ⟨hdlt, hdeq⟩ := hTrue hr
      have hidx : colDescentIdx ks recno
          = (colBinSearchAux ks recno (ks.length - 1) 0 (ks.length - 1) (ks.length - 1)).2.1 := by
        simp only [colDescentIdx, colBinSearch]
        rw [if_neg hfast, if_pos hr]
      have hsel : DescentSelected ks recno
          ((colBinSearchAux ks recno (ks.length - 1) 0 (ks.length - 1) (ks.length - 1)).2.1) := by
        refine ⟨by omega, Nat.le_of_eq hdeq, Or.inr ?_⟩
        exact hdeq.symm.trans_lt (hlt _ _ (Nat.lt_succ_self _) hdlt)
      rw [hidx]
      refine ⟨hsel, fun j hj => descentSelected_unique hlt hj hsel, ?_⟩
      intro _ hf
      rw [hbs] at hf
      rw [hf] at hr
      exact Bool.noConfusion hr
    · have hrf :
          (colBinSearchAux ks recno (ks.length - 1) 0 (ks.length - 1) (ks.length - 1)).2.2
            = false := by
        rcases Bool.eq_false_or_eq_true
          (colBinSearchAux ks recno (ks.length - 1) 0 (ks.length - 1) (ks.length - 1)).2.2 with
          hc | hc
        · exact absurd hc hr
        · exact hc
      obtain ⟨hb1, hb2, hble⟩ := hFalse hrf
      have hb0 : 0 < (colBinSearchAux ks recno (ks.length - 1) 0 (ks.length - 1)
          (ks.length - 1)).1 := by
        by_contra hb
        have hz : (colBinSearchAux ks recno (ks.length - 1) 0 (ks.length - 1)
            (ks.length - 1)).1 = 0 := by omega
        have := hb2 0 (by omega) (by omega)
        omega
      have hidx : colDescentIdx ks recno
          = (colBinSearchAux ks recno (ks.length - 1) 0 (ks.length - 1) (ks.length - 1)).1 - 1 := by
        simp only [colDescentIdx, colBinSearch]
        rw [if_neg hfast, if_neg hr]
      have hsel : DescentSelected ks recno
          ((colBinSearchAux ks recno (ks.length - 1) 0 (ks.length - 1) (ks.length - 1)).1 - 1) := by
        refine ⟨by omega, Nat.le_of_lt (hb1 _ (by omega)), Or.inr ?_⟩
        have hb1eq : (colBinSearchAux ks recno (ks.length - 1) 0 (ks.length - 1)
            (ks.length - 1)).1 - 1 + 1
            = (colBinSearchAux ks recno (ks.length - 1) 0 (ks.length - 1) (ks.length - 1)).1 := by
          omega
        rw [hb1eq]
        rcases Nat.lt_or_ge ((colBinSearchAux ks recno (ks.length - 1) 0 (ks.length - 1)
            (ks.length - 1)).1 + 1) ks.length with hcase | hcase
        · exact hb2 _ (Nat.le_refl _) hcase
        · have hbl : (colBinSearchAux ks recno (ks.length - 1) 0 (ks.length - 1)
              (ks.length - 1)).1 = ks.length - 1 := by omega
          rw [hbl]
          omega
      rw [hidx]
      refine ⟨hsel, fun j hj => descentSelected_unique hlt hj hsel, ?_⟩
      intro _ _
      rw [hbs]
      exact hb0

/-- Witness for C1 at `ks = [10, 20, 30]`, `recno = 25`: the hypotheses
hold and the descent step selects child 1 (`key 20 ≤ 25 < key 30`). -/
theorem colDescentIdx_selects_w :
    0 < ([10, 20, 30] : List Nat).length ∧ List.Pairwise (· < ·) ([10, 20, 30] : List Nat) ∧
    ([10, 20, 30] : List Nat).getD 0 0 ≤ 25 ∧
    DescentSelected [10, 20, 30] 25 (colDescentIdx [10, 20, 30] 25) :=
  ⟨by decide, by decide, by decide,
    (colDescentIdx_selects [10, 20, 30] 25 (by decide) (by decide) (by decide)).1⟩

/-! ## Properties of the modelled skiplist probe -/

/-- Whatever the probe returns is an element of the skiplist, at or below
the probe key. -/
lemma colInsertSearch_some {l : List Nat} {recno r : Nat}
    (h : colInsertSearch l recno = some r) : r ∈ l ∧ r ≤ recno := by
  suffices haux : ∀ acc : Option Nat,
      l.foldl (fun acc e => if e ≤ recno then some e else acc) acc = some r →
      acc = some r ∨ (r ∈ l ∧ r ≤ recno) by
    rcases haux none h with hc | hc
    · exact Option.noConfusion hc
    · exact hc
  clear h
  induction l with
  | nil => exact fun acc ha => Or.inl ha
  | cons e t ih =>
    intro acc ha
    rw [List.foldl_cons] at ha
    rcases ih _ ha with hc | hc
    · by_cases he : e ≤ recno
      · rw [if_pos he] at hc
        have her := Option.some.inj hc
        subst her
        exact Or.inr ⟨List.mem_cons_self e t, he⟩
      · rw [if_neg he] at hc
        exact Or.inl hc
    · exact Or.inr ⟨List.mem_cons_of_mem e hc.1, hc.2⟩

/-- A probe over entries that are all above the key leaves the accumulator
untouched. -/
lemma foldl_probe_const {recno : Nat} : ∀ (l : List Nat), (∀ x ∈ l, recno < x) →
    ∀ acc : Option Nat, l.foldl (fun acc e => if e ≤ recno then some e else acc) acc = acc := by
  intro l
  induction l with
  | nil => exact fun _ _ => rfl
  | cons e t ih =>
    intro hall acc
    rw [List.foldl_cons]
    have he : ¬ e ≤ recno := by
      have := hall e (List.mem_cons_self e t)
      omega
    rw [if_neg he]
    exact ih (fun x hx => hall x (List.mem_cons_of_mem e hx)) acc

/-- The probe, generalized over its accumulator: on an ordered skiplist
that contains the probe key, the fold ends on exactly that key. -/
lemma colInsertSearch_mem_aux (recno : Nat) : ∀ (l : List Nat),
    List.Pairwise (· < ·) l → recno ∈ l →
    ∀ acc : Option Nat,
      l.foldl (fun acc e => if e ≤ recno then some e else acc) acc = some recno := by
  intro l
  induction l with
  | nil => intro _ hm; exact absurd hm (List.not_mem_nil recno)
  | cons e t ih =>
    intro hs hm acc
    rw [List.foldl_cons]
    rcases List.mem_cons.mp hm with he | ht
    · subst he
      rw [if_pos (Nat.le_refl recno)]
      exact foldl_probe_const t (fun x hx => (List.pairwise_cons.mp hs).1 x hx) (some recno)
    · exact ih (List.pairwise_cons.mp hs).2 ht _

/-- On an ordered skiplist that contains the probe key, the probe finds
exactly that key. -/
lemma colInsertSearch_of_mem {l : List Nat} {recno : Nat}
    (hs : List.Pairwise (· < ·) l) (hm : recno ∈ l) :
    colInsertSearch l recno = some recno :=
  colInsertSearch_mem_aux recno l hs hm none

/-! ## Branch characterizations of the leaf search -/

/-- `past_end` with the allocation sentinel: probe skipped, miss result. -/
lemma pastEnd_skip (recno : Nat) (app : List Nat) (cbt : CursorBtree)
    (h : recno = uint64Max) :
    pastEnd recno app cbt =
      { cbt with insHead := some HeadId.append, ins := none,
                 compare := -1, maxRecord := true } := by
  simp only [pastEnd]
  rw [if_pos h]

/-- `past_end` with an append-list miss. -/
lemma pastEnd_miss (recno : Nat) (app : List Nat) (cbt : CursorBtree)
    (hne : recno ≠ uint64Max) (hp : colInsertSearch app recno = none) :
    pastEnd recno app cbt =
      { cbt with insHead := some HeadId.append, ins := none,
                 compare := -1, maxRecord := true } := by
  simp only [pastEnd]
  rw [if_neg hne, hp]

/-- `past_end` with an append-list hit at exactly the probe key. -/
lemma pastEnd_hit_eq (recno : Nat) (app : List Nat) (cbt : CursorBtree) (m : Nat)
    (hne : recno ≠ uint64Max) (hp : colInsertSearch app recno = some m)
    (he : recno = m) :
    pastEnd recno app cbt =
      { cbt with insHead := some HeadId.append, ins := some m,
                 recno := some m, compare := 0 } := by
  simp only [pastEnd]
  rw [if_neg hne, hp]
  dsimp only
  rw [if_pos he, if_neg (by decide : ¬ (0 : Int) = -1)]

/-- `past_end` with an append-list hit above the probe key. -/
lemma pastEnd_hit_gt (recno : Nat) (app : List Nat) (cbt : CursorBtree) (m : Nat)
    (hne : recno ≠ uint64Max) (hp : colInsertSearch app recno = some m)
    (hlt : recno < m) :
    pastEnd recno app cbt =
      { cbt with insHead := some HeadId.append, ins := some m,
                 recno := some m, compare := 1 } := by
  simp only [pastEnd]
  rw [if_neg hne, hp]
  dsimp only
  rw [if_neg (by omega : ¬ recno = m), if_pos hlt,
    if_neg (by decide : ¬ (1 : Int) = -1)]

/-- `past_end` with an append-list hit below the probe key. -/
lemma pastEnd_hit_lt (recno : Nat) (app : List Nat) (cbt : CursorBtree) (m : Nat)
    (hne : recno ≠ uint64Max) (hp : colInsertSearch app recno = some m)
    (hgt : m < recno) :
    pastEnd recno app cbt =
      { cbt with insHead := some HeadId.append, ins := some m,
                 recno := some m, compare := -1, maxRecord := true } := by
  simp only [pastEnd]
  rw [if_neg hne, hp]
  dsimp only
  rw [if_neg (by omega : ¬ recno = m), if_neg (by omega : ¬ recno < m),
    if_pos (rfl : (-1 : Int) = -1)]

/-- In-range resolution commits the update pair exactly on an equal hit. -/
lemma inRangeResolve_commit (recno : Nat) (h : HeadId) (l : List Nat) (cbt : CursorBtree)
    (hp : colInsertSearch l recno = some recno) :
    inRangeResolve recno h l cbt = { cbt with insHead := some h, ins := some recno } := by
  simp only [inRangeResolve]
  rw [hp]
  dsimp only
  rw [if_pos rfl]

/-- In-range resolution on a probe miss leaves the cursor untouched. -/
lemma inRangeResolve_none (recno : Nat) (h : HeadId) (l : List Nat) (cbt : CursorBtree)
    (hp : colInsertSearch l recno = none) :
    inRangeResolve recno h l cbt = cbt := by
  simp only [inRangeResolve]
  rw [hp]

/-- In-range resolution on an unequal hit leaves the cursor untouched. -/
lemma inRangeResolve_ne (recno : Nat) (h : HeadId) (l : List Nat) (cbt : CursorBtree)
    (m : Nat) (hp : colInsertSearch l recno = some m) (hne : recno ≠ m) :
    inRangeResolve recno h l cbt = cbt := by
  simp only [inRangeResolve]
  rw [hp]
  dsimp only
  rw [if_neg hne]

/-- Fixed-length leaf, record before the page. -/
lemma leafSearch_fix_before (recno : Nat) (refv : LeafRefM) (cbt : CursorBtree)
    (start entries : Nat) (upd app : List Nat)
    (hpage : refv.page = .colFix start entries upd app) (hlt : recno < start) :
    leafSearch recno refv cbt =
      { cbt with ref := some refv, recno := some recno, compare := 1, slot := uint32Max } := by
  simp only [leafSearch]
  rw [hpage]
  dsimp only
  rw [if_pos hlt]

/-- Fixed-length leaf, record past the page. -/
lemma leafSearch_fix_past (recno : Nat) (refv : LeafRefM) (cbt : CursorBtree)
    (start entries : Nat) (upd app : List Nat)
    (hpage : refv.page = .colFix start entries upd app)
    (hge : ¬ recno < start) (hpast : (start + entries) % twoPow64 ≤ recno) :
    leafSearch recno refv cbt =
      pastEnd recno app
        { cbt with ref := some refv, recno := some ((start + entries) % twoPow64),
                   compare := 0, slot := uint32Max } := by
  simp only [leafSearch]
  rw [hpage]
  dsimp only
  rw [if_neg hge, if_pos hpast]

/-- Fixed-length leaf, record on the page. -/
lemma leafSearch_fix_in (recno : Nat) (refv : LeafRefM) (cbt : CursorBtree)
    (start entries : Nat) (upd app : List Nat)
    (hpage : refv.page = .colFix start entries upd app)
    (hge : ¬ recno < start) (hin : ¬ (start + entries) % twoPow64 ≤ recno) :
    leafSearch recno refv cbt =
      inRangeResolve recno HeadId.updateSingle upd
        { cbt with ref := some refv, recno := some recno,
                   compare := 0, slot := uint32Max } := by
  simp only [leafSearch]
  rw [hpage]
  dsimp only
  rw [if_neg hge, if_neg hin]

/-- Variable-length leaf, record before the page. -/
lemma leafSearch_var_before (recno : Nat) (refv : LeafRefM) (cbt : CursorBtree)
    (start : Nat) (rle : List Nat) (updSlots : List (List Nat)) (app : List Nat)
    (hpage : refv.page = .colVar start rle updSlots app) (hlt : recno < start) :
    leafSearch recno refv cbt =
      { cbt with ref := some refv, recno := some recno, compare := 1, slot := uint32Max } := by
  simp only [leafSearch]
  rw [hpage]
  dsimp only
  rw [if_pos hlt]

/-- Variable-length leaf, record past the page (no covering slot). -/
lemma leafSearch_var_past (recno : Nat) (refv : LeafRefM) (cbt : CursorBtree)
    (start : Nat) (rle : List Nat) (updSlots : List (List Nat)) (app : List Nat)
    (hpage : refv.page = .colVar start rle updSlots app)
    (hge : ¬ recno < start) (hvs : colVarSearch start rle recno = none) :
    leafSearch recno refv cbt =
      pastEnd recno app
        { cbt with ref := some refv, recno := some (colVarLastRecno start rle),
                   compare := 0, slot := uint32Max } := by
  simp only [leafSearch]
  rw [hpage]
  dsimp only
  rw [if_neg hge, hvs]

/-- Variable-length leaf, record on the page in slot `s`. -/
lemma leafSearch_var_in (recno : Nat) (refv : LeafRefM) (cbt : CursorBtree)
    (start : Nat) (rle : List Nat) (updSlots : List (List Nat)) (app : List Nat) (s : Nat)
    (hpage : refv.page = .colVar start rle updSlots app)
    (hge : ¬ recno < start) (hvs : colVarSearch start rle recno = some s) :
    leafSearch recno refv cbt =
      inRangeResolve recno (HeadId.updateSlot s) (updSlots.getD s [])
        { cbt with ref := some refv, recno := some recno,
                   compare := 0, slot := s } := by
  simp only [leafSearch]
  rw [hpage]
  dsimp only
  rw [if_neg hge, hvs]

/-! ## Frame lemmas and a case principle -/

/-- `past_end` never touches the cursor's leaf reference or slot. -/
lemma pastEnd_frame (recno : Nat) (app : List Nat) (cbt : CursorBtree) :
    (pastEnd recno app cbt).ref = cbt.ref ∧ (pastEnd recno app cbt).slot = cbt.slot := by
  simp only [pastEnd]
  cases hp : (if recno = uint64Max then none else colInsertSearch app recno) with
  | none => exact ⟨rfl, rfl⟩
  | some m =>
    dsimp only
    by_cases hc : (if recno = m then (0 : Int) else if recno < m then 1 else -1) = -1
    · rw [if_pos hc]; exact ⟨rfl, rfl⟩
    · rw [if_neg hc]; exact ⟨rfl, rfl⟩

/-- `past_end` always commits the append head. -/
lemma pastEnd_insHead (recno : Nat) (app : List Nat) (cbt : CursorBtree) :
    (pastEnd recno app cbt).insHead = some HeadId.append := by
  simp only [pastEnd]
  cases hp : (if recno = uint64Max then none else colInsertSearch app recno) with
  | none => rfl
  | some m =>
    dsimp only
    by_cases hc : (if recno = m then (0 : Int) else if recno < m then 1 else -1) = -1
    · rw [if_pos hc]
    · rw [if_neg hc]

/-- In-range resolution touches only the `ins_head`/`ins` pair. -/
lemma inRangeResolve_frame (recno : Nat) (h : HeadId) (l : List Nat) (cbt : CursorBtree) :
    (inRangeResolve recno h l cbt).ref = cbt.ref ∧
    (inRangeResolve recno h l cbt).recno = cbt.recno ∧
    (inRangeResolve recno h l cbt).slot = cbt.slot ∧
    (inRangeResolve recno h l cbt).compare = cbt.compare ∧
    (inRangeResolve recno h l cbt).maxRecord = cbt.maxRecord := by
  simp only [inRangeResolve]
  cases hp : colInsertSearch l recno with
  | none => exact ⟨rfl, rfl, rfl, rfl, rfl⟩
  | some m =>
    dsimp only
    by_cases he : recno = m
    · rw [if_pos he]; exact ⟨rfl, rfl, rfl, rfl, rfl⟩
    · rw [if_neg he]; exact ⟨rfl, rfl, rfl, rfl, rfl⟩

/-- Case principle following the six control-flow paths of the leaf search. -/
lemma leafSearch_cases (recno : Nat) (refv : LeafRefM) (cbt : CursorBtree)
    (P : CursorBtree → Prop)
    (h1 : ∀ start entries upd app, refv.page = .colFix start entries upd app →
      recno < start →
      P { cbt with ref := some refv, recno := some recno, compare := 1, slot := uint32Max })
    (h2 : ∀ start entries upd app, refv.page = .colFix start entries upd app →
      ¬ recno < start → (start + entries) % twoPow64 ≤ recno →
      P (pastEnd recno app
          { cbt with ref := some refv, recno := some ((start + entries) % twoPow64),
                     compare := 0, slot := uint32Max }))
    (h3 : ∀ start entries upd app, refv.page = .colFix start entries upd app →
      ¬ recno < start → ¬ (start + entries) % twoPow64 ≤ recno →
      P (inRangeResolve recno HeadId.updateSingle upd
          { cbt with ref := some refv, recno := some recno,
                     compare := 0, slot := uint32Max }))
    (h4 : ∀ start rle updSlots app, refv.page = .colVar start rle updSlots app →
      recno < start →
      P { cbt with ref := some refv, recno := some recno, compare := 1, slot := uint32Max })
    (h5 : ∀ start rle updSlots app, refv.page = .colVar start rle updSlots app →
      ¬ recno < start → colVarSearch start rle recno = none →
      P (pastEnd recno app
          { cbt with ref := some refv, recno := some (colVarLastRecno start rle),
                     compare := 0, slot := uint32Max }))
    (h6 : ∀ start rle updSlots app s, refv.page = .colVar start rle updSlots app →
      ¬ recno < start → colVarSearch start rle recno = some s →
      P (inRangeResolve recno (HeadId.updateSlot s) (updSlots.getD s [])
          { cbt with ref := some refv, recno := some recno,
                     compare := 0, slot := s })) :
    P (leafSearch recno refv cbt) := by
  rcases hpage : refv.page with ⟨start, entries, upd, app⟩ | ⟨start, rle, updSlots, app⟩
  · by_cases hb : recno < start
    · rw [leafSearch_fix_before recno refv cbt start entries upd app hpage hb]
      exact h1 start entries upd app hpage hb
    · by_cases hpst : (start + entries) % twoPow64 ≤ recno
      · rw [leafSearch_fix_past recno refv cbt start entries upd app hpage hb hpst]
        exact h2 start entries upd app hpage hb hpst
      · rw [leafSearch_fix_in recno refv cbt start entries upd app hpage hb hpst]
        exact h3 start entries upd app hpage hb hpst
  · by_cases hb : recno < start
    · rw [leafSearch_var_before recno refv cbt start rle updSlots app hpage hb]
      exact h4 start rle updSlots app hpage hb
    · cases hvs : colVarSearch start rle recno with
      | none =>
        rw [leafSearch_var_past recno refv cbt start rle updSlots app hpage hb hvs]
        exact h5 start rle updSlots app hpage hb hvs
      | some s =>
        rw [leafSearch_var_in recno refv cbt start rle updSlots app s hpage hb hvs]
        exact h6 start rle updSlots app s hpage hb hvs

/-- Every leaf search commits the resolved leaf into `cbt->ref`. -/
lemma leafSearch_ref (recno : Nat) (refv : LeafRefM) (cbt : CursorBtree) :
    (leafSearch recno refv cbt).ref = some refv := by
  refine leafSearch_cases recno refv cbt (fun c => c.ref = some refv)
    ?_ ?_ ?_ ?_ ?_ ?_
  · intro _ _ _ _ _ _; rfl
  · intro start entries upd app _ _ _
    rw [(pastEnd_frame recno app _).1]
  · intro start entries upd app _ _ _
    rw [(inRangeResolve_frame recno HeadId.updateSingle upd _).1]
  · intro _ _ _ _ _ _; rfl
  · intro start rle updSlots app _ _ _
    rw [(pastEnd_frame recno app _).1]
  · intro start rle updSlots app s _ _ _
    rw [(inRangeResolve_frame recno (HeadId.updateSlot s) (updSlots.getD s []) _).1]

/-! ## Entry-point path lemmas -/

/-- The early-return path: pinned leaf, parent present, range check nonzero. -/
lemma colSearch_early (fuel : Nat) (root : ColTree) (recno : Nat) (l : LeafRefM)
    (hp : HomePindex) (cbt0 : CursorBtree) (hh : l.home = some hp)
    (hc : checkLeafKeyRange recno l.keyRecno l.pindexHint hp ≠ 0) :
    colSearch fuel root recno (some l) cbt0 =
      some { cursorPosClear cbt0 with
             compare := checkLeafKeyRange recno l.keyRecno l.pindexHint hp, slot := 0 } := by
  simp only [colSearch]
  rw [hh]
  dsimp only
  rw [if_pos hc]

/-- Pinned leaf without a parent: straight to the leaf search. -/
lemma colSearch_pinned_nohome (fuel : Nat) (root : ColTree) (recno : Nat) (l : LeafRefM)
    (cbt0 : CursorBtree) (hh : l.home = none) :
    colSearch fuel root recno (some l) cbt0 =
      some (leafSearch recno l (cursorPosClear cbt0)) := by
  simp only [colSearch]
  rw [hh]

/-- Pinned leaf whose range check says "search the leaf". -/
lemma colSearch_pinned_inrange (fuel : Nat) (root : ColTree) (recno : Nat) (l : LeafRefM)
    (hp : HomePindex) (cbt0 : CursorBtree) (hh : l.home = some hp)
    (hc : checkLeafKeyRange recno l.keyRecno l.pindexHint hp = 0) :
    colSearch fuel root recno (some l) cbt0 =
      some (leafSearch recno l (cursorPosClear cbt0)) := by
  simp only [colSearch]
  rw [hh]
  dsimp only
  rw [if_neg (fun hne => hne hc)]

/-- Full-tree search: the descent resolved a leaf. -/
lemma colSearch_descend (fuel : Nat) (root : ColTree) (recno : Nat)
    (cbt0 : CursorBtree) (k : Nat) (p : LeafPage)
    (hd : descend fuel 0 root recno = some (k, p)) :
    colSearch fuel root recno none cbt0 =
      some (leafSearch recno ⟨k, 0, none, p⟩ (cursorPosClear cbt0)) := by
  simp only [colSearch]
  rw [hd]

/-- Full-tree search: out of fuel. -/
lemma colSearch_descend_none (fuel : Nat) (root : ColTree) (recno : Nat)
    (cbt0 : CursorBtree) (hd : descend fuel 0 root recno = none) :
    colSearch fuel root recno none cbt0 = none := by
  simp only [colSearch]
  rw [hd]

/-- Unfolding `takesEarlyReturn` over a pinned leaf with a parent. -/
lemma takesEarlyReturn_eq (recno : Nat) (l : LeafRefM) (hp : HomePindex)
    (hh : l.home = some hp) :
    takesEarlyReturn recno (some l)
      = decide (checkLeafKeyRange recno l.keyRecno l.pindexHint hp ≠ 0) := by
  simp only [takesEarlyReturn]
  rw [hh]

/-- A pinned leaf without a parent never takes the early return. -/
lemma takesEarlyReturn_nohome (recno : Nat) (l : LeafRefM) (hh : l.home = none) :
    takesEarlyReturn recno (some l) = false := by
  simp only [takesEarlyReturn]
  rw [hh]

/-! ## Concrete scenario pages -/

/-- The fixed-length page of spec scenarios S1–S4 and S7:
`pg_fix_recno = 100`, `pg_fix_entries = 50`, no pending updates. -/
def pageS : LeafPage := .colFix 100 50 [] []

/-- A pinned reference to `pageS` with no parent (straight leaf search). -/
def leafS : LeafRefM := ⟨100, 0, none, pageS⟩

/-- A pinned reference to `pageS` whose parent holds it at slot 0, the
sibling starting at 200. -/
def leafSH : LeafRefM := ⟨100, 0, some ⟨[(100, true), (200, false)]⟩, pageS⟩

/-- `pageS` with `{170}` on the append skiplist (scenario S3). -/
def pageApp : LeafPage := .colFix 100 50 [] [170]

/-- A pinned reference to `pageApp` with no parent. -/
def leafApp : LeafRefM := ⟨100, 0, none, pageApp⟩

/-- A one-leaf tree over `pageS`. -/
def treeS : ColTree := .leafT pageS

/-! ## Claim C6 -/

/-- Claim C6: for every pinned leaf with a parent, the leaf-range check
behaves exactly as the specification describes — `+1` when the record is
before the leaf's starting key; `-1` when the hint is in bounds, still
names this leaf, and the next child's starting key is at or below the
record; `0` otherwise, including every stale-hint case.  (The C function's
return status is always success; only `compare` varies.) -/
theorem checkLeafKeyRange_eq_spec (recno keyRecno hint : Nat) (hp : HomePindex) :
    checkLeafKeyRange recno keyRecno hint hp = checkLeafKeyRangeSpec recno keyRecno hint hp := by
  unfold checkLeafKeyRange checkLeafKeyRangeSpec
  by_cases h1 : recno < keyRecno
  · rw [if_pos h1, if_pos h1]
  · rw [if_neg h1, if_neg h1]
    by_cases h2 : hint + 1 < hp.slots.length ∧ (hp.slots.getD hint (0, false)).2 = true
    · rw [if_pos h2]
      by_cases h3 : (hp.slots.getD (hint + 1) (0, false)).1 ≤ recno
      · rw [if_pos h3, if_pos ⟨h2.1, h2.2, h3⟩]
      · rw [if_neg h3, if_neg (fun hc => h3 hc.2.2)]
    · rw [if_neg h2, if_neg (fun hc => h2 ⟨hc.1, hc.2.1⟩)]

/-! ## Claim C2 -/

/-- Counterexample to claim C2 as stated: a successful early return (the
pinned `leafSH` is ruled out for record 50, `compare = 1`, `slot = 0`)
leaves `cursor.ref` unassigned — here `none`, since the caller's cursor
held no reference — so a leaf is *not* always selected. -/
theorem colSearch_ref_early_cex :
    (colSearch 1 treeS 50 (some leafSH) emptyCursor).isSome = true ∧
    ((colSearch 1 treeS 50 (some leafSH) emptyCursor).getD emptyCursor).compare = 1 ∧
    ((colSearch 1 treeS 50 (some leafSH) emptyCursor).getD emptyCursor).slot = 0 ∧
    ((colSearch 1 treeS 50 (some leafSH) emptyCursor).getD emptyCursor).ref = none := by
  decide

/-- Claim C2 (amended): after a successful search that does not take the
early return, `cursor.ref` is populated with the resolved leaf; on the
early-return path the search leaves `cursor.ref` exactly as the caller's
cursor had it, so it is non-null only if the caller was already positioned
on a leaf. -/
theorem colSearch_ref_on_success (fuel : Nat) (root : ColTree) (recno : Nat)
    (leaf : Option LeafRefM) (cbt0 : CursorBtree)
    (hs : (colSearch fuel root recno leaf cbt0).isSome = true) :
    (takesEarlyReturn recno leaf = true →
      ((colSearch fuel root recno leaf cbt0).getD emptyCursor).ref = cbt0.ref) ∧
    (takesEarlyReturn recno leaf = false →
      ((colSearch fuel root recno leaf cbt0).getD emptyCursor).ref.isSome = true) := by
  cases leaf with
  | some l =>
    cases hh : l.home with
    | some hp =>
      by_cases hc : checkLeafKeyRange recno l.keyRecno l.pindexHint hp ≠ 0
      · rw [colSearch_early fuel root recno l hp cbt0 hh hc]
        constructor
        · intro _
          rfl
        · intro hf
          rw [takesEarlyReturn_eq recno l hp hh] at hf
          exact absurd hc (of_decide_eq_false hf)
      · push_neg at hc
        rw [colSearch_pinned_inrange fuel root recno l hp cbt0 hh hc]
        constructor
        · intro ht
          rw [takesEarlyReturn_eq recno l hp hh] at ht
          exact absurd hc (of_decide_eq_true ht)
        · intro _
          show (leafSearch recno l (cursorPosClear cbt0)).ref.isSome = true
          rw [leafSearch_ref]
          rfl
    | none =>
      rw [colSearch_pinned_nohome fuel root recno l cbt0 hh]
      constructor
      · intro ht
        rw [takesEarlyReturn_nohome recno l hh] at ht
        exact Bool.noConfusion ht
      · intro _
        show (leafSearch recno l (cursorPosClear cbt0)).ref.isSome = true
        rw [leafSearch_ref]
        rfl
  | none =>
    cases hd : descend fuel 0 root recno with
    | none =>
      rw [colSearch_descend_none fuel root recno cbt0 hd] at hs
      exact Bool.noConfusion hs
    | some kp =>
      obtain ⟨k, p⟩ := kp
      rw [colSearch_descend fuel root recno cbt0 k p hd]
      constructor
      · intro ht
        exact Bool.noConfusion ht
      · intro _
        show (leafSearch recno ⟨k, 0, none, p⟩ (cursorPosClear cbt0)).ref.isSome = true
        rw [leafSearch_ref]
        rfl

/-- Witness for the amended C2 at scenario S1 (record 125 on the pinned
`leafS`, no early return, successful search). -/
theorem colSearch_ref_on_success_w :
    (colSearch 1 treeS 125 (some leafS) emptyCursor).isSome = true ∧
    ((takesEarlyReturn 125 (some leafS) = true →
       ((colSearch 1 treeS 125 (some leafS) emptyCursor).getD emptyCursor).ref
         = emptyCursor.ref) ∧
     (takesEarlyReturn 125 (some leafS) = false →
       ((colSearch 1 treeS 125 (some leafS) emptyCursor).getD emptyCursor).ref.isSome
         = true)) :=
  ⟨by decide, colSearch_ref_on_success 1 treeS 125 (some leafS) emptyCursor (by decide)⟩

/-! ## Claim C9 -/

/-- Counterexample to claim C9 (scenario S2) as stated: `compare = +1` and
`slot = 0` hold, but `cursor.ref` is not the supplied leaf — the early
return never assigns it (here the caller's cursor held none). -/
theorem colSearch_s2_ref_cex :
    ((colSearch 1 treeS 50 (some leafSH) emptyCursor).getD emptyCursor).compare = 1 ∧
    ((colSearch 1 treeS 50 (some leafSH) emptyCursor).getD emptyCursor).slot = 0 ∧
    ¬ ((colSearch 1 treeS 50 (some leafSH) emptyCursor).getD emptyCursor).ref
        = some leafSH := by
  decide

/-- Claim C9 (amended): scenario S2 — searching record 50 against the
pinned fixed page starting at 100 whose parent is present — returns
`compare = +1` and `slot = 0`; `cursor.ref` is left exactly as the
caller's cursor held it (so it equals the supplied leaf precisely when the
cursor was already positioned there). -/
theorem colSearch_s2 (cbt0 : CursorBtree) :
    (colSearch 1 treeS 50 (some leafSH) cbt0).isSome = true ∧
    ((colSearch 1 treeS 50 (some leafSH) cbt0).getD emptyCursor).compare = 1 ∧
    ((colSearch 1 treeS 50 (some leafSH) cbt0).getD emptyCursor).slot = 0 ∧
    ((colSearch 1 treeS 50 (some leafSH) cbt0).getD emptyCursor).ref = cbt0.ref := by
  have hh : leafSH.home = some ⟨[(100, true), (200, false)]⟩ := rfl
  have hc : checkLeafKeyRange 50 leafSH.keyRecno leafSH.pindexHint
      ⟨[(100, true), (200, false)]⟩ ≠ 0 := by decide
  rw [colSearch_early 1 treeS 50 leafSH ⟨[(100, true), (200, false)]⟩ cbt0 hh hc]
  refine ⟨rfl, ?_, rfl, rfl⟩
  show checkLeafKeyRange 50 leafSH.keyRecno leafSH.pindexHint
      ⟨[(100, true), (200, false)]⟩ = 1
  decide

/-! ## Claim C4 -/

/-- Counterexample to claim C4 (scenario S1) as stated: the search for
record 125 succeeds with `compare = 0`, but `slot` is the `UINT32_MAX`
sentinel, not 25, and `cursor.ins_head` is null, not the page's whole-page
update head. -/
theorem colSearch_s1_cex :
    ((colSearch 1 treeS 125 (some leafS) emptyCursor).getD emptyCursor).compare = 0 ∧
    ¬ ((colSearch 1 treeS 125 (some leafS) emptyCursor).getD emptyCursor).slot = 25 ∧
    ¬ ((colSearch 1 treeS 125 (some leafS) emptyCursor).getD emptyCursor).insHead
        = some HeadId.updateSingle := by
  decide

/-- Claim C4 (amended): scenario S1 — record 125 on the fixed page
`pg_fix_recno = 100`, `pg_fix_entries = 50` with empty update and append
chains — returns `compare = 0` and `ins = null`, with `slot = UINT32_MAX`
(the fixed-length in-range path never assigns an on-page slot; the record
is addressed by `recno`) and `ins_head = null` (the whole-page update head
is probed but committed to the cursor only on an exact skiplist match,
which the empty chain cannot produce). -/
theorem colSearch_s1 :
    colSearch 1 treeS 125 (some leafS) emptyCursor =
      some { ref := some leafS, recno := some 125, slot := uint32Max, compare := 0,
             insHead := none, ins := none, maxRecord := false } := by
  decide

/-! ## Claim C3 -/

/-- A failed variable-width slot lookup means the record is past every
run on the page. -/
lemma colVarSlotAux_none {recno : Nat} : ∀ (rle : List Nat) (base slot : Nat),
    base ≤ recno → colVarSlotAux recno base slot rle = none →
    base + rle.sum ≤ recno := by
  intro rle
  induction rle with
  | nil =>
    intro base slot hb _
    simpa using hb
  | cons n t ih =>
    intro base slot hb hn
    simp only [colVarSlotAux] at hn
    by_cases hlt : recno < base + n
    · rw [if_pos hlt] at hn
      exact Option.noConfusion hn
    · rw [if_neg hlt] at hn
      have := ih (base + n) (slot + 1) (by omega) hn
      rw [List.sum_cons]
      omega

/-- When the variable-width lookup misses, the page's last record number is
at or below the probe key. -/
lemma colVarLastRecno_le {start recno : Nat} {rle : List Nat}
    (hge : start ≤ recno) (h : colVarSearch start rle recno = none) :
    colVarLastRecno start rle ≤ recno := by
  have hs := colVarSlotAux_none rle start 0 hge h
  unfold colVarLastRecno
  by_cases h0 : rle.sum = 0
  · rw [if_pos h0]
    omega
  · rw [if_neg h0]
    omega

/-- The sign law on the `past_end` paths: provided the cursor's record
field entered holding a value at or below the probe key, any nonzero
`compare` with an adjusted record different from the key satisfies
`sign(recno − cursor.recno) = −compare`. -/
lemma pastEnd_sign (recno : Nat) (app : List Nat) (cbt : CursorBtree) (b : Nat)
    (hb : cbt.recno = some b) (hle : b ≤ recno)
    (hc : (pastEnd recno app cbt).compare ≠ 0)
    (hr : (pastEnd recno app cbt).recno ≠ some recno) :
    Int.sign ((recno : Int) - ((pastEnd recno app cbt).recno.getD 0 : Int))
      = - (pastEnd recno app cbt).compare := by
  by_cases hmax : recno = uint64Max
  · rw [pastEnd_skip recno app cbt hmax] at hr ⊢
    have hblt : b < recno := by
      rcases Nat.lt_or_ge b recno with h | h
      · exact h
      · exfalso
        apply hr
        show cbt.recno = some recno
        rw [hb]
        have hbe : b = recno := by omega
        rw [hbe]
    show Int.sign ((recno : Int) - (cbt.recno.getD 0 : Int)) = -(-1)
    rw [hb]
    show Int.sign ((recno : Int) - (b : Int)) = -(-1)
    rw [Int.sign_eq_one_iff_pos.mpr (by omega)]
    decide
  · cases hp : colInsertSearch app recno with
    | none =>
      rw [pastEnd_miss recno app cbt hmax hp] at hr ⊢
      have hblt : b < recno := by
        rcases Nat.lt_or_ge b recno with h | h
        · exact h
        · exfalso
          apply hr
          show cbt.recno = some recno
          rw [hb]
          have hbe : b = recno := by omega
          rw [hbe]
      show Int.sign ((recno : Int) - (cbt.recno.getD 0 : Int)) = -(-1)
      rw [hb]
      show Int.sign ((recno : Int) - (b : Int)) = -(-1)
      rw [Int.sign_eq_one_iff_pos.mpr (by omega)]
      decide
    | some m =>
      rcases Nat.lt_trichotomy recno m with hlt | heq | hgt
      · rw [pastEnd_hit_gt recno app cbt m hmax hp hlt]
        show Int.sign ((recno : Int) - (m : Int)) = -(1)
        rw [Int.sign_eq_neg_one_iff_neg.mpr (by omega)]
      · exfalso
        apply hc
        rw [pastEnd_hit_eq recno app cbt m hmax hp heq]
      · rw [pastEnd_hit_lt recno app cbt m hmax hp hgt]
        show Int.sign ((recno : Int) - (m : Int)) = -(-1)
        rw [Int.sign_eq_one_iff_pos.mpr (by omega)]
        decide

/-- The sign law over the whole leaf search, wherever `compare ≠ 0` and the
cursor's record field differs from the probe key. -/
lemma leafSearch_sign (recno : Nat) (refv : LeafRefM) (cbt : CursorBtree)
    (hc : (leafSearch recno refv cbt).compare ≠ 0)
    (hr : (leafSearch recno refv cbt).recno ≠ some recno) :
    Int.sign ((recno : Int) - ((leafSearch recno refv cbt).recno.getD 0 : Int))
      = - (leafSearch recno refv cbt).compare := by
  refine leafSearch_cases recno refv cbt
    (fun c => c.compare ≠ 0 → c.recno ≠ some recno →
      Int.sign ((recno : Int) - (c.recno.getD 0 : Int)) = - c.compare)
    ?_ ?_ ?_ ?_ ?_ ?_ hc hr
  · intro _ _ _ _ _ _ _ hrr
    exact absurd rfl hrr
  · intro start entries upd app _ _ hpast hcc hrr
    exact pastEnd_sign recno app _ ((start + entries) % twoPow64) rfl hpast hcc hrr
  · intro start entries upd app _ _ _ hcc _
    exact absurd (inRangeResolve_frame recno HeadId.updateSingle upd _).2.2.2.1 hcc
  · intro _ _ _ _ _ _ _ hrr
    exact absurd rfl hrr
  · intro start rle updSlots app _ hge hvs hcc hrr
    exact pastEnd_sign recno app _ (colVarLastRecno start rle) rfl
      (colVarLastRecno_le (Nat.le_of_not_lt hge) hvs) hcc hrr
  · intro start rle updSlots app s _ _ _ hcc _
    exact absurd
      (inRangeResolve_frame recno (HeadId.updateSlot s) (updSlots.getD s []) _).2.2.2.1 hcc

/-- Counterexample to claim C3 as stated: on the `recno < pg_fix_recno`
path the cursor echoes the search key (`cursor.recno = recno = 50`) while
`compare = +1`, so `sign(recno − cursor.recno) = 0 ≠ −compare`. -/
theorem colSearch_sign_cex :
    ((colSearch 1 treeS 50 (some leafS) emptyCursor).getD emptyCursor).compare = 1 ∧
    ((colSearch 1 treeS 50 (some leafS) emptyCursor).getD emptyCursor).recno = some 50 ∧
    ¬ Int.sign ((50 : Int) -
        (((colSearch 1 treeS 50 (some leafS) emptyCursor).getD emptyCursor).recno.getD 0 : Int))
      = - ((colSearch 1 treeS 50 (some leafS) emptyCursor).getD emptyCursor).compare := by
  decide

/-- Claim C3 (amended): on every successful return with `compare ≠ 0` and
a populated `cursor.recno` that differs from the search key,
`sign(recno − cursor.recno) = −compare`.  (On the before-page path, and on
the fixed-page empty-append miss with `recno` exactly the first appendable
record, `cursor.recno` equals the search key and the sign is `0`, not
`−compare`.) -/
theorem colSearch_sign_amended (fuel : Nat) (root : ColTree) (recno : Nat)
    (leaf : Option LeafRefM) (cbt0 : CursorBtree)
    (h1 : (colSearch fuel root recno leaf cbt0).isSome = true)
    (h2 : ((colSearch fuel root recno leaf cbt0).getD emptyCursor).compare ≠ 0)
    (h3 : ((colSearch fuel root recno leaf cbt0).getD emptyCursor).recno.isSome = true)
    (h4 : ((colSearch fuel root recno leaf cbt0).getD emptyCursor).recno ≠ some recno) :
    Int.sign ((recno : Int) -
        (((colSearch fuel root recno leaf cbt0).getD emptyCursor).recno.getD 0 : Int))
      = - ((colSearch fuel root recno leaf cbt0).getD emptyCursor).compare := by
  cases leaf with
  | some l =>
    cases hh : l.home with
    | some hp =>
      by_cases hcmp : checkLeafKeyRange recno l.keyRecno l.pindexHint hp ≠ 0
      · rw [colSearch_early fuel root recno l hp cbt0 hh hcmp] at h3
        exact Bool.noConfusion h3
      · push_neg at hcmp
        rw [colSearch_pinned_inrange fuel root recno l hp cbt0 hh hcmp] at h2 h4 ⊢
        exact leafSearch_sign recno l (cursorPosClear cbt0) h2 h4
    | none =>
      rw [colSearch_pinned_nohome fuel root recno l cbt0 hh] at h2 h4 ⊢
      exact leafSearch_sign recno l (cursorPosClear cbt0) h2 h4
  | none =>
    cases hd : descend fuel 0 root recno with
    | none =>
      rw [colSearch_descend_none fuel root recno cbt0 hd] at h1
      exact Bool.noConfusion h1
    | some kp =>
      obtain ⟨k, p⟩ := kp
      rw [colSearch_descend fuel root recno cbt0 k p hd] at h2 h4 ⊢
      exact leafSearch_sign recno ⟨k, 0, none, p⟩ (cursorPosClear cbt0) h2 h4

/-- Witness for the amended C3: record 200 past `pageS` with an empty
append list gives `compare = −1`, `cursor.recno = 150 ≠ 200`, and
`sign(200 − 150) = 1 = −compare`. -/
theorem colSearch_sign_amended_w :
    (colSearch 1 treeS 200 (some leafS) emptyCursor).isSome = true ∧
    ((colSearch 1 treeS 200 (some leafS) emptyCursor).getD emptyCursor).compare ≠ 0 ∧
    ((colSearch 1 treeS 200 (some leafS) emptyCursor).getD emptyCursor).recno.isSome = true ∧
    ((colSearch 1 treeS 200 (some leafS) emptyCursor).getD emptyCursor).recno ≠ some 200 ∧
    Int.sign ((200 : Int) -
        (((colSearch 1 treeS 200 (some leafS) emptyCursor).getD emptyCursor).recno.getD 0 : Int))
      = - ((colSearch 1 treeS 200 (some leafS) emptyCursor).getD emptyCursor).compare :=
  ⟨by decide, by decide, by decide, by decide,
    colSearch_sign_amended 1 treeS 200 (some leafS) emptyCursor
      (by decide) (by decide) (by decide) (by decide)⟩

/-! ## Claim C5 -/

/-- On the append paths, a committed match forces `compare` to be the sign
of `match.recno − recno` (the negation of the spec's stated convention). -/
lemma leafSearch_append_sign (recno : Nat) (refv : LeafRefM) (cbt : CursorBtree)
    (hclear : cbt.insHead = none)
    (hh : (leafSearch recno refv cbt).insHead = some HeadId.append)
    (hi : (leafSearch recno refv cbt).ins.isSome = true) :
    (leafSearch recno refv cbt).compare
      = Int.sign (((leafSearch recno refv cbt).ins.getD 0 : Int) - (recno : Int)) := by
  refine leafSearch_cases recno refv cbt
    (fun c => c.insHead = some HeadId.append → c.ins.isSome = true →
      c.compare = Int.sign ((c.ins.getD 0 : Int) - (recno : Int)))
    ?_ ?_ ?_ ?_ ?_ ?_ hh hi
  · intro _ _ _ _ _ _ hh2 _
    have hh3 : cbt.insHead = some HeadId.append := hh2
    rw [hclear] at hh3
    exact Option.noConfusion hh3
  · intro start entries upd app _ _ _ _ hi2
    by_cases hmax : recno = uint64Max
    · rw [pastEnd_skip recno app _ hmax] at hi2
      exact Bool.noConfusion hi2
    · cases hp : colInsertSearch app recno with
      | none =>
        rw [pastEnd_miss recno app _ hmax hp] at hi2
        exact Bool.noConfusion hi2
      | some m =>
        rcases Nat.lt_trichotomy recno m with hlt | heq | hgt
        · rw [pastEnd_hit_gt recno app _ m hmax hp hlt]
          show (1 : Int) = Int.sign ((m : Int) - (recno : Int))
          rw [Int.sign_eq_one_iff_pos.mpr (by omega)]
        · rw [pastEnd_hit_eq recno app _ m hmax hp heq]
          show (0 : Int) = Int.sign ((m : Int) - (recno : Int))
          rw [show ((m : Int) - (recno : Int)) = 0 by omega, Int.sign_zero]
        · rw [pastEnd_hit_lt recno app _ m hmax hp hgt]
          show (-1 : Int) = Int.sign ((m : Int) - (recno : Int))
          rw [Int.sign_eq_neg_one_iff_neg.mpr (by omega)]
  · intro start entries upd app _ _ _ hh2 _
    exfalso
    cases hp : colInsertSearch upd recno with
    | none =>
      rw [inRangeResolve_none recno HeadId.updateSingle upd _ hp] at hh2
      have hh3 : cbt.insHead = some HeadId.append := hh2
      rw [hclear] at hh3
      exact Option.noConfusion hh3
    | some m =>
      by_cases he : recno = m
      · subst he
        rw [inRangeResolve_commit recno HeadId.updateSingle upd _ hp] at hh2
        exact HeadId.noConfusion (Option.some.inj hh2)
      · rw [inRangeResolve_ne recno HeadId.updateSingle upd _ m hp he] at hh2
        have hh3 : cbt.insHead = some HeadId.append := hh2
        rw [hclear] at hh3
        exact Option.noConfusion hh3
  · intro _ _ _ _ _ _ hh2 _
    have hh3 : cbt.insHead = some HeadId.append := hh2
    rw [hclear] at hh3
    exact Option.noConfusion hh3
  · intro start rle updSlots app _ _ _ _ hi2
    by_cases hmax : recno = uint64Max
    · rw [pastEnd_skip recno app _ hmax] at hi2
      exact Bool.noConfusion hi2
    · cases hp : colInsertSearch app recno with
      | none =>
        rw [pastEnd_miss recno app _ hmax hp] at hi2
        exact Bool.noConfusion hi2
      | some m =>
        rcases Nat.lt_trichotomy recno m with hlt | heq | hgt
        · rw [pastEnd_hit_gt recno app _ m hmax hp hlt]
          show (1 : Int) = Int.sign ((m : Int) - (recno : Int))
          rw [Int.sign_eq_one_iff_pos.mpr (by omega)]
        · rw [pastEnd_hit_eq recno app _ m hmax hp heq]
          show (0 : Int) = Int.sign ((m : Int) - (recno : Int))
          rw [show ((m : Int) - (recno : Int)) = 0 by omega, Int.sign_zero]
        · rw [pastEnd_hit_lt recno app _ m hmax hp hgt]
          show (-1 : Int) = Int.sign ((m : Int) - (recno : Int))
          rw [Int.sign_eq_neg_one_iff_neg.mpr (by omega)]
  · intro start rle updSlots app s _ _ _ hh2 _
    exfalso
    cases hp : colInsertSearch (updSlots.getD s []) recno with
    | none =>
      rw [inRangeResolve_none recno (HeadId.updateSlot s) (updSlots.getD s []) _ hp] at hh2
      have hh3 : cbt.insHead = some HeadId.append := hh2
      rw [hclear] at hh3
      exact Option.noConfusion hh3
    | some m =>
      by_cases he : recno = m
      · subst he
        rw [inRangeResolve_commit recno (HeadId.updateSlot s) (updSlots.getD s []) _ hp] at hh2
        exact HeadId.noConfusion (Option.some.inj hh2)
      · rw [inRangeResolve_ne recno (HeadId.updateSlot s) (updSlots.getD s []) _ m hp he] at hh2
        have hh3 : cbt.insHead = some HeadId.append := hh2
        rw [hclear] at hh3
        exact Option.noConfusion hh3

/-- Counterexample to claim C5 as stated: searching record 200 with the
append list `{170}` matches entry 170; `recno > match.recno`, yet the code
sets `compare = −1`, not `sign(recno − match.recno) = +1`. -/
theorem colSearch_append_sign_cex :
    ((colSearch 1 (ColTree.leafT pageApp) 200 (some leafApp) emptyCursor).getD
        emptyCursor).ins = some 170 ∧
    Int.sign ((200 : Int) - (170 : Int)) = 1 ∧
    ((colSearch 1 (ColTree.leafT pageApp) 200 (some leafApp) emptyCursor).getD
        emptyCursor).compare = -1 := by
  decide

/-- Claim C5 (amended): whenever the search resolves in the append branch
with a committed match, `cursor.compare = sign(match.recno − recno)` —
`+1` when `recno < match.recno`, `−1` when `recno > match.recno`, `0` on
equality (the opposite orientation to the one the spec wrote). -/
theorem colSearch_append_match_sign (fuel : Nat) (root : ColTree) (recno : Nat)
    (leaf : Option LeafRefM) (cbt0 : CursorBtree)
    (h1 : (colSearch fuel root recno leaf cbt0).isSome = true)
    (h2 : ((colSearch fuel root recno leaf cbt0).getD emptyCursor).insHead
        = some HeadId.append)
    (h3 : ((colSearch fuel root recno leaf cbt0).getD emptyCursor).ins.isSome = true) :
    ((colSearch fuel root recno leaf cbt0).getD emptyCursor).compare
      = Int.sign ((((colSearch fuel root recno leaf cbt0).getD emptyCursor).ins.getD 0 : Int)
          - (recno : Int)) := by
  cases leaf with
  | some l =>
    cases hh : l.home with
    | some hp =>
      by_cases hcmp : checkLeafKeyRange recno l.keyRecno l.pindexHint hp ≠ 0
      · rw [colSearch_early fuel root recno l hp cbt0 hh hcmp] at h2
        exact Option.noConfusion h2
      · push_neg at hcmp
        rw [colSearch_pinned_inrange fuel root recno l hp cbt0 hh hcmp] at h2 h3 ⊢
        exact leafSearch_append_sign recno l (cursorPosClear cbt0) rfl h2 h3
    | none =>
      rw [colSearch_pinned_nohome fuel root recno l cbt0 hh] at h2 h3 ⊢
      exact leafSearch_append_sign recno l (cursorPosClear cbt0) rfl h2 h3
  | none =>
    cases hd : descend fuel 0 root recno with
    | none =>
      rw [colSearch_descend_none fuel root recno cbt0 hd] at h1
      exact Bool.noConfusion h1
    | some kp =>
      obtain ⟨k, p⟩ := kp
      rw [colSearch_descend fuel root recno cbt0 k p hd] at h2 h3 ⊢
      exact leafSearch_append_sign recno ⟨k, 0, none, p⟩ (cursorPosClear cbt0) rfl h2 h3

/-- Witness for the amended C5 at the `{170}` append page with record 200:
the match is 170 and `compare = sign(170 − 200) = −1`. -/
theorem colSearch_append_match_sign_w :
    (colSearch 1 (ColTree.leafT pageApp) 200 (some leafApp) emptyCursor).isSome = true ∧
    ((colSearch 1 (ColTree.leafT pageApp) 200 (some leafApp) emptyCursor).getD
        emptyCursor).insHead = some HeadId.append ∧
    ((colSearch 1 (ColTree.leafT pageApp) 200 (some leafApp) emptyCursor).getD
        emptyCursor).ins.isSome = true ∧
    ((colSearch 1 (ColTree.leafT pageApp) 200 (some leafApp) emptyCursor).getD
        emptyCursor).compare
      = Int.sign ((((colSearch 1 (ColTree.leafT pageApp) 200 (some leafApp)
          emptyCursor).getD emptyCursor).ins.getD 0 : Int) - (200 : Int)) :=
  ⟨by decide, by decide, by decide,
    colSearch_append_match_sign 1 (ColTree.leafT pageApp) 200 (some leafApp) emptyCursor
      (by decide) (by decide) (by decide)⟩

/-! ## Claim C7 -/

/-- The fixed page of scenario S1 with a pending update at record 125. -/
def pageU : LeafPage := .colFix 100 50 [125] []

/-- A pinned reference to `pageU` with no parent. -/
def leafU : LeafRefM := ⟨100, 0, none, pageU⟩

/-- Claim C7: on the in-range slot path, given a cleared cursor and an
ordered update skiplist, `cursor.ins_head`/`cursor.ins` are written iff the
probe of the selected head finds an entry exactly at the search key;
otherwise both stay null and the on-page slot is the answer. -/
theorem inrange_commit_iff (recno : Nat) (refv : LeafRefM) (cbt : CursorBtree)
    (hh : cbt.insHead = none) (hi : cbt.ins = none) :
    (∀ start entries upd app, refv.page = .colFix start entries upd app →
       List.Pairwise (· < ·) upd → ¬ recno < start →
       ¬ (start + entries) % twoPow64 ≤ recno →
       (leafSearch recno refv cbt).ins = (if recno ∈ upd then some recno else none) ∧
       (leafSearch recno refv cbt).insHead
         = (if recno ∈ upd then some HeadId.updateSingle else none)) ∧
    (∀ start rle updSlots app s, refv.page = .colVar start rle updSlots app →
       List.Pairwise (· < ·) (updSlots.getD s []) → ¬ recno < start →
       colVarSearch start rle recno = some s →
       (leafSearch recno refv cbt).ins
         = (if recno ∈ updSlots.getD s [] then some recno else none) ∧
       (leafSearch recno refv cbt).insHead
         = (if recno ∈ updSlots.getD s [] then some (HeadId.updateSlot s) else none)) := by
  constructor
  · intro start entries upd app hpage hsort hge hin
    rw [leafSearch_fix_in recno refv cbt start entries upd app hpage hge hin]
    by_cases hm : recno ∈ upd
    · rw [inRangeResolve_commit recno HeadId.updateSingle upd _
        (colInsertSearch_of_mem hsort hm), if_pos hm, if_pos hm]
      exact ⟨rfl, rfl⟩
    · rw [if_neg hm, if_neg hm]
      cases hp : colInsertSearch upd recno with
      | none =>
        rw [inRangeResolve_none recno HeadId.updateSingle upd _ hp]
        exact ⟨hi, hh⟩
      | some m =>
        have hne : recno ≠ m := by
          intro he
          subst he
          exact hm (colInsertSearch_some hp).1
        rw [inRangeResolve_ne recno HeadId.updateSingle upd _ m hp hne]
        exact ⟨hi, hh⟩
  · intro start rle updSlots app s hpage hsort hge hvs
    rw [leafSearch_var_in recno refv cbt start rle updSlots app s hpage hge hvs]
    by_cases hm : recno ∈ updSlots.getD s []
    · rw [inRangeResolve_commit recno (HeadId.updateSlot s) (updSlots.getD s []) _
        (colInsertSearch_of_mem hsort hm), if_pos hm, if_pos hm]
      exact ⟨rfl, rfl⟩
    · rw [if_neg hm, if_neg hm]
      cases hp : colInsertSearch (updSlots.getD s []) recno with
      | none =>
        rw [inRangeResolve_none recno (HeadId.updateSlot s) (updSlots.getD s []) _ hp]
        exact ⟨hi, hh⟩
      | some m =>
        have hne : recno ≠ m := by
          intro he
          subst he
          exact hm (colInsertSearch_some hp).1
        rw [inRangeResolve_ne recno (HeadId.updateSlot s) (updSlots.getD s []) _ m hp hne]
        exact ⟨hi, hh⟩

/-- Witness for C7: record 125 on `pageU` (update chain `{125}`) commits
the pair; the hypotheses hold for the cleared cursor. -/
theorem inrange_commit_iff_w :
    emptyCursor.insHead = none ∧ emptyCursor.ins = none ∧
    ((leafSearch 125 leafU emptyCursor).ins = (if 125 ∈ [125] then some 125 else none) ∧
     (leafSearch 125 leafU emptyCursor).insHead
       = (if 125 ∈ [125] then some HeadId.updateSingle else none)) :=
  ⟨rfl, rfl,
    (inrange_commit_iff 125 leafU emptyCursor rfl rfl).1 100 50 [125] [] rfl
      (by decide) (by decide) (by decide)⟩

/-! ## Claim C8 -/

/-- Claim C8: searching `recno = UINT64_MAX` on a page where the record is
past the end (always, for a fixed page whose starting key is a valid
64-bit value) skips the append probe — `ins = null` no matter what the
append list holds — and returns `ins_head = append`, `compare = −1`, and
the `MAX_RECORD` flag. -/
theorem leafSearch_uint64max (refv : LeafRefM) (cbt : CursorBtree) :
    (∀ start entries upd app, refv.page = .colFix start entries upd app →
       start < twoPow64 →
       (leafSearch uint64Max refv cbt).insHead = some HeadId.append ∧
       (leafSearch uint64Max refv cbt).ins = none ∧
       (leafSearch uint64Max refv cbt).compare = -1 ∧
       (leafSearch uint64Max refv cbt).maxRecord = true) ∧
    (∀ start rle updSlots app, refv.page = .colVar start rle updSlots app →
       start ≤ uint64Max → colVarSearch start rle uint64Max = none →
       (leafSearch uint64Max refv cbt).insHead = some HeadId.append ∧
       (leafSearch uint64Max refv cbt).ins = none ∧
       (leafSearch uint64Max refv cbt).compare = -1 ∧
       (leafSearch uint64Max refv cbt).maxRecord = true) := by
  constructor
  · intro start entries upd app hpage hstart
    have hb : ¬ uint64Max < start := by
      simp only [uint64Max]
      simp only [twoPow64] at hstart
      omega
    have hpast : (start + entries) % twoPow64 ≤ uint64Max := by
      have hm := Nat.mod_lt (start + entries) (show 0 < twoPow64 by decide)
      simp only [uint64Max, twoPow64]
      simp only [twoPow64] at hm
      omega
    rw [leafSearch_fix_past uint64Max refv cbt start entries upd app hpage hb hpast,
      pastEnd_skip uint64Max app _ rfl]
    exact ⟨rfl, rfl, rfl, rfl⟩
  · intro start rle updSlots app hpage hstart hvs
    have hb : ¬ uint64Max < start := Nat.not_lt.mpr hstart
    rw [leafSearch_var_past uint64Max refv cbt start rle updSlots app hpage hb hvs,
      pastEnd_skip uint64Max app _ rfl]
    exact ⟨rfl, rfl, rfl, rfl⟩

/-- Witness for C8: on `pageApp` — whose append list holds `{170}` — the
`UINT64_MAX` search still returns `ins = null` (the probe is skipped),
with the append head, `compare = −1` and the flag set. -/
theorem leafSearch_uint64max_w :
    leafApp.page = LeafPage.colFix 100 50 [] [170] ∧ 100 < twoPow64 ∧
    ((leafSearch uint64Max leafApp emptyCursor).insHead = some HeadId.append ∧
     (leafSearch uint64Max leafApp emptyCursor).ins = none ∧
     (leafSearch uint64Max leafApp emptyCursor).compare = -1 ∧
     (leafSearch uint64Max leafApp emptyCursor).maxRecord = true) :=
  ⟨rfl, by decide,
    (leafSearch_uint64max leafApp emptyCursor).1 100 50 [] [170] rfl (by decide)⟩

/-! ## Claim C10 -/

/-- Claim C10: whenever the search takes the append branch, the append
head is committed to `cursor.ins_head` before the probe, so even a miss
returns `ins_head = append`; asymmetrically, the in-range path leaves
`ins_head` null unless an exact update-chain match exists. -/
theorem append_branch_insHead (recno : Nat) (refv : LeafRefM) (cbt : CursorBtree) :
    (∀ start entries upd app, refv.page = .colFix start entries upd app →
       ¬ recno < start → (start + entries) % twoPow64 ≤ recno →
       (leafSearch recno refv cbt).insHead = some HeadId.append) ∧
    (∀ start rle updSlots app, refv.page = .colVar start rle updSlots app →
       ¬ recno < start → colVarSearch start rle recno = none →
       (leafSearch recno refv cbt).insHead = some HeadId.append) ∧
    (cbt.insHead = none →
      ∀ start entries upd app, refv.page = .colFix start entries upd app →
        List.Pairwise (· < ·) upd → ¬ recno < start →
        ¬ (start + entries) % twoPow64 ≤ recno → ¬ recno ∈ upd →
        (leafSearch recno refv cbt).insHead = none) := by
  refine ⟨?_, ?_, ?_⟩
  · intro start entries upd app hpage hge hpast
    rw [leafSearch_fix_past recno refv cbt start entries upd app hpage hge hpast]
    exact pastEnd_insHead recno app _
  · intro start rle updSlots app hpage hge hvs
    rw [leafSearch_var_past recno refv cbt start rle updSlots app hpage hge hvs]
    exact pastEnd_insHead recno app _
  · intro hh start entries upd app hpage hsort hge hin hm
    rw [leafSearch_fix_in recno refv cbt start entries upd app hpage hge hin]
    cases hp : colInsertSearch upd recno with
    | none =>
      rw [inRangeResolve_none recno HeadId.updateSingle upd _ hp]
      exact hh
    | some m =>
      have hne : recno ≠ m := by
        intro he
        subst he
        exact hm (colInsertSearch_some hp).1
      rw [inRangeResolve_ne recno HeadId.updateSingle upd _ m hp hne]
      exact hh

/-- Witness for C10: record 200 is past `pageS` (empty append list), and
the returned cursor still carries the append head. -/
theorem append_branch_insHead_w :
    leafS.page = LeafPage.colFix 100 50 [] [] ∧ ¬ (200 : Nat) < 100 ∧
    (100 + 50) % twoPow64 ≤ 200 ∧
    (leafSearch 200 leafS emptyCursor).insHead = some HeadId.append :=
  ⟨rfl, by decide, by decide,
    (append_branch_insHead 200 leafS emptyCursor).1 100 50 [] [] rfl
      (by decide) (by decide)⟩
